import Mathlib

/-!
Verification of the message routing and session/output pipeline of the
Telegram/Gemini relay bot (`bot.py`).

Text is modelled as `List Char` (Python `str`).  The segmenter
(`split_message`), the title decorator (`format_titles_with_low_line`),
the admission/routing logic of `handle_message` and the membership
watcher (`chat_member_handler`) are embedded as executable Lean
functions translated line by line from the source.  The backend (the
Gemini client) is an external collaborator and is modelled as a total
function from effective text to reply text; the embedding assumes the
backend client is configured, which is the regime the design document
describes (configuration bootstrap is out of its scope).  Loop-shaped
Python code is embedded with an explicit fuel argument equal to the
input length, which is proved sufficient exactly where the Python loop
terminates.
-/

namespace GeminiBot

/-- Text, modelled as Python `str`: a list of characters. -/
abbrev Str := List Char

/-- The characters Python's default `str.strip()` and the regex class
`\s` treat as whitespace (ASCII range). -/
def pyIsSpace (c : Char) : Bool :=
  c = ' ' || c = '\t' || c = '\n' || c = '\r' || c = '\x0b' || c = '\x0c'

/-- Python `str.lstrip()`. -/
def lstrip (s : Str) : Str := s.dropWhile pyIsSpace

/-- Python `str.rstrip()`. -/
def rstrip (s : Str) : Str := (s.reverse.dropWhile pyIsSpace).reverse

/-- Python `str.strip()`. -/
def strip (s : Str) : Str := rstrip (lstrip s)

/-- Index of the last occurrence of `c` in `s`, if any
(the core of Python `str.rfind`). -/
def rlast : Str → Char → Option Nat
  | [], _ => none
  | a :: t, c =>
    match rlast t c with
    | some i => some (i + 1)
    | none => if a = c then some 0 else none

/-- `text.rfind('\n', 0, m)`, falling back to `text.rfind(' ', 0, m)`:
the split point search of `split_message` (bot.py lines 111-120). -/
def splitPoint (text : Str) (m : Nat) : Option Nat :=
  match rlast (text.take m) '\n' with
  | some i => some i
  | none => rlast (text.take m) ' '

/-- The `while len(remaining_text) > max_chunk_length` loop of
`split_message` (bot.py lines 110-133), embedded with a fuel argument;
fuel `text.length` is sufficient whenever `0 < m` (the Python loop
diverges for `m = 0`). -/
def goChunksF (m : Nat) : Nat → Str → List Str
  | 0, text => if !(strip text).isEmpty then [strip text] else []
  | f + 1, text =>
    if m < text.length then
      match splitPoint text m with
      | some i => strip (text.take i) :: goChunksF m f (strip (text.drop i))
      | none => text.take m :: goChunksF m f (text.drop m)
    else
      if !(strip text).isEmpty then [strip text] else []

/-- `split_message(text, max_chunk_length)` (bot.py lines 102-136):
the loop above followed by the final `[chunk for chunk in chunks if chunk]`
filter. -/
def split_message (text : Str) (m : Nat) : List Str :=
  (goChunksF m text.length text).filter (fun c => !c.isEmpty)

/-! ### Decimal rendering of naturals (Python `str(n)` for `n ≥ 0`) -/

/-- Little-endian base-10 digit extraction, fuelled (fuel `n` suffices). -/
def natDigitsAux : Nat → Nat → List Nat
  | _, 0 => []
  | 0, _ + 1 => []
  | f + 1, n + 1 => ((n + 1) % 10) :: natDigitsAux f ((n + 1) / 10)

/-- Little-endian base-10 digits of `n` (`[]` for `0`). -/
def natDigits (n : Nat) : List Nat := natDigitsAux n n

/-- Digit value to ASCII digit character. -/
def digitCh (d : Nat) : Char := Char.ofNat (48 + d)

/-- Python `str(n)` for a natural number. -/
def natToStr (n : Nat) : Str :=
  if n = 0 then ['0'] else ((natDigits n).map digitCh).reverse

/-! ### `format_titles_with_low_line` (bot.py lines 74-99) -/

/-- U+0332 COMBINING LOW LINE. -/
def lowLine : Char := Char.ofNat 0x0332

/-- The characters Python `str.splitlines` treats as line boundaries:
`\n`, `\r`, `\v`, `\f`, the separators `\x1c`-`\x1e`, NEL, and the
Unicode line/paragraph separators.  (`"\r\n"` additionally counts as a
single two-character boundary, handled in `splitOnBreaks`.) -/
def isLineBreak (c : Char) : Bool :=
  c = '\n' || c = '\r' || c = '\x0b' || c = '\x0c' ||
    c = '\x1c' || c = '\x1d' || c = '\x1e' || c = '\x85' ||
    c = '\u2028' || c = '\u2029'

/-- Split at every line boundary, keeping empty pieces (one piece more
than the number of boundaries); a `"\r\n"` pair is one boundary. -/
def splitOnBreaks : Str → List Str
  | [] => [[]]
  | [c] => if isLineBreak c then [[], []] else [[c]]
  | c :: c' :: t =>
    if c = '\r' ∧ c' = '\n' then [] :: splitOnBreaks t
    else if isLineBreak c then [] :: splitOnBreaks (c' :: t)
    else
      match splitOnBreaks (c' :: t) with
      | [] => [[c]]
      | h :: r => (c :: h) :: r

/-- Python `str.splitlines()`: split at every line boundary, with no
empty final piece when the text ends in a boundary. -/
def splitlines (s : Str) : List Str :=
  if s = [] then []
  else
    let ps := splitOnBreaks s
    if ps.getLast? = some [] then ps.dropLast else ps

/-- Python `"\n".join(lines)`. -/
def joinNl : List Str → Str
  | [] => []
  | [l] => l
  | l :: l' :: ls => l ++ '\n' :: joinNl (l' :: ls)

/-- The regex match `re.match(r"^(#+)(\s+)(.*)", line)` (bot.py line 84):
one or more `'#'`, then one or more whitespace characters, then the rest
of the line, returned as the three groups. -/
def matchHeader (line : Str) : Option (Str × Str × Str) :=
  let hashes := line.takeWhile (fun c => c = '#')
  let rest := line.dropWhile (fun c => c = '#')
  let space := rest.takeWhile pyIsSpace
  let title := rest.dropWhile pyIsSpace
  if hashes.isEmpty || space.isEmpty then none else some (hashes, space, title)

/-- `"".join(c + COMBINING_LOW_LINE for c in title_text)` (bot.py line 91). -/
def underlineTitle (t : Str) : Str := t.flatMap (fun c => [c, lowLine])

/-- The per-line body of the `for line in text_block.splitlines()` loop
(bot.py lines 84-98). -/
def processLine (line : Str) : Str :=
  match matchHeader line with
  | none => line
  | some (hashes, space, title) =>
    if !(strip title).isEmpty then hashes ++ space ++ underlineTitle title
    else line

/-- `format_titles_with_low_line(text_block)` (bot.py lines 74-99). -/
def format_titles_with_low_line (t : Str) : Str :=
  if t = [] then []
  else joinNl ((splitlines t).map processLine)

/-! ### Python `str.replace` and `in` (substring containment) -/

/-- Fuelled core of Python `s.replace(tok, rep)`: replaces every
non-overlapping occurrence of `tok`, left to right.  Fuel `s.length`
suffices for a non-empty `tok`. -/
def replaceAllF (tok rep : Str) : Nat → Str → Str
  | _, [] => []
  | 0, s => s
  | f + 1, c :: t =>
    if tok.isPrefixOf (c :: t) then rep ++ replaceAllF tok rep f ((c :: t).drop tok.length)
    else c :: replaceAllF tok rep f t

/-- Python `s.replace(tok, rep)` for non-empty `tok`. -/
def replaceAll (tok rep s : Str) : Str := replaceAllF tok rep s.length s

/-- Python `tok in s` (substring containment) for non-empty `tok`. -/
def containsTok : Str → Str → Bool
  | [], tok => tok.isPrefixOf []
  | s@(_ :: t), tok => tok.isPrefixOf s || containsTok t tok

/-! ### Data model: surfaces, configuration, session store -/

/-- `message.chat.type`. -/
inductive ChatType where
  | privateChat
  | channel
  | group
  | supergroup
deriving DecidableEq

/-- The configuration the handlers read: `context.bot.username` and
`ALLOWED_CHANNEL_IDS`. -/
structure Env where
  botUsername : Str
  allowedChannelIds : List Int
deriving DecidableEq

/-- `MAX_USER_MESSAGE_CHARS` (bot.py line 32). -/
def MAX_USER_MESSAGE_CHARS : Nat := 3000

/-- `MAX_TELEGRAM_MESSAGE_CHARS` (bot.py line 33). -/
def MAX_TELEGRAM_MESSAGE_CHARS : Nat := 4000

/-- The `user_gemini_chats` dict: chat id to the conversation history
held inside the vendor chat object, modelled as the list of
(user text, reply text) turn pairs. -/
abbrev SessionMap := List (Int × List (Str × Str))

/-- Dict lookup `user_gemini_chats.get(key)`. -/
def lookupSession : SessionMap → Int → Option (List (Str × Str))
  | [], _ => none
  | (k, h) :: t, id => if k = id then some h else lookupSession t id

/-- Dict insert `user_gemini_chats[key] = ...` for a fresh key. -/
def insertSession (st : SessionMap) (id : Int) (h : List (Str × Str)) : SessionMap :=
  (id, h) :: st

/-- `del user_gemini_chats[key]` (guarded by membership in the source). -/
def removeSession (st : SessionMap) (id : Int) : SessionMap :=
  st.filter (fun p => !(p.1 = id : Bool))

/-- Lines 222-224 of bot.py: create an empty-history session on first
use of a context key (session creation is modelled as succeeding; the
design document delegates creation failures to the backend collaborator). -/
def getOrCreate (st : SessionMap) (id : Int) : SessionMap :=
  if lookupSession st id = none then insertSession st id [] else st

/-- Overwrite the history of an existing key (the mutation
`send_message` performs on the vendor chat object held in the dict). -/
def setSession : SessionMap → Int → List (Str × Str) → SessionMap
  | [], _, _ => []
  | (k, v) :: t, id, h => if k = id then (k, h) :: t else (k, v) :: setSession t id h

/-! ### The admission step of `handle_message` (bot.py lines 179-209) -/

/-- The per-surface admission logic: the `should_process` /
`is_allowed_channel_interaction` computation of bot.py lines 179-204,
applied to the already-stripped message text.  `some (eff, isChannel)`
means the event proceeds with effective text `eff`; `none` means a
silent return. -/
def classify (env : Env) (ct : ChatType) (chatId : Int) (userText : Str) :
    Option (Str × Bool) :=
  match ct with
  | .privateChat => some (userText, false)
  | .channel =>
    if chatId ∈ env.allowedChannelIds then some (userText, true) else none
  | .group | .supergroup =>
    let tok := '@' :: env.botUsername
    if !env.botUsername.isEmpty && containsTok userText tok then
      let stripped := strip (replaceAll tok [] userText)
      if !stripped.isEmpty then some (stripped, false) else none
    else none

/-! ### The outbound send stage (bot.py lines 249-272) -/

/-- `f"(Part {i+1}/{len(message_parts)})\n\n" if len(message_parts) > 1 else ""`
(bot.py line 259), with `i` already 1-based here. -/
def partHeader (i n : Nat) : Str :=
  if 1 < n then
    "(Part ".toList ++ natToStr i ++ '/' :: natToStr n ++ ')' :: '\n' :: ['\n']
  else []

/-- Lines 260-270 of bot.py: compose header and chunk; if the result
exceeds `MAX_TELEGRAM_MESSAGE_CHARS`, truncate the chunk content
(never the header) to the remaining budget (clamped at zero). -/
def finalizeMessage (header content : Str) : Str :=
  let msg := header ++ content
  if MAX_TELEGRAM_MESSAGE_CHARS < msg.length then
    header ++ content.take (MAX_TELEGRAM_MESSAGE_CHARS - header.length)
  else msg

/-- The `for i, part_content in enumerate(message_parts)` send loop
(bot.py lines 258-272), as the list of (chat id, text) messages sent. -/
def sendsForParts (cid : Int) (parts : List Str) : List (Int × Str) :=
  (List.range parts.length).map
    (fun i => (cid, finalizeMessage (partHeader (i + 1) parts.length) (parts.getD i [])))

/-- The `Escaped → Segmented → Sent` tail of the pipeline (bot.py lines
244-272): title formatting, segmentation at
`MAX_TELEGRAM_MESSAGE_CHARS - 25`, then the send loop. -/
def routerSends (cid : Int) (reply : Str) : List (Int × Str) :=
  sendsForParts cid
    (split_message (format_titles_with_low_line reply) (MAX_TELEGRAM_MESSAGE_CHARS - 25))

/-! ### `handle_message` (bot.py lines 163-288) -/

/-- An inbound text-message event. -/
structure MsgEvent where
  chatId : Int
  chatType : ChatType
  text : Str
deriving DecidableEq

/-- The observable outcome of one `handle_message` call: the session
map afterwards, the outbound messages sent (chat id, text) in order,
and the texts sent to the Gemini backend. -/
structure RouterOut where
  sessions : SessionMap
  sends : List (Int × Str)
  backendCalls : List Str
deriving DecidableEq

/-- The "message too long" reply (bot.py lines 212-215). -/
def tooLongText (n : Nat) : Str :=
  "The message is too long (".toList ++ natToStr n ++ " chars). Max ".toList ++
    natToStr MAX_USER_MESSAGE_CHARS ++ " chars. Shorter message please.".toList

/-- `handle_message(update, context)` (bot.py lines 163-288), for a
configured backend modelled as the total function `backend` from
effective text to reply text.  Follows the source order: empty-message
guard, per-surface admission, empty-effective-text guard, length guard,
session get-or-create, backend call (the vendor chat object records the
turn pair), empty-reply guard, title formatting, segmentation, send loop. -/
def handle_message (env : Env) (backend : Str → Str) (st : SessionMap)
    (ev : MsgEvent) : RouterOut :=
  if ev.text = [] then ⟨st, [], []⟩
  else
    let userText := strip ev.text
    match classify env ev.chatType ev.chatId userText with
    | none => ⟨st, [], []⟩
    | some (eff, _isChannel) =>
      if eff = [] then ⟨st, [], []⟩
      else if MAX_USER_MESSAGE_CHARS < eff.length then
        ⟨st, [(ev.chatId, tooLongText eff.length)], []⟩
      else
        let st1 := getOrCreate st ev.chatId
        let hist := (lookupSession st1 ev.chatId).getD []
        let reply := backend eff
        let st2 := setSession st1 ev.chatId (hist ++ [(eff, reply)])
        if strip reply = [] then ⟨st2, [], [eff]⟩
        else
          let parts :=
            split_message (format_titles_with_low_line reply)
              (MAX_TELEGRAM_MESSAGE_CHARS - 25)
          if parts = [] then ⟨st2, [], [eff]⟩
          else ⟨st2, routerSends ev.chatId reply, [eff]⟩

/-! ### `chat_member_handler` (bot.py lines 296-325) -/

/-- `telegram.ChatMember` statuses. -/
inductive MemberStatus where
  | administrator
  | creator
  | member
  | restricted
  | left
  | kicked
deriving DecidableEq

/-- A `my_chat_member` membership-transition update for the bot itself. -/
structure MemberEvent where
  chatId : Int
  chatType : ChatType
  oldStatus : MemberStatus
  newStatus : MemberStatus
  canPost : Bool
deriving DecidableEq

/-- The channel welcome message (bot.py line 314). -/
def helloText (env : Env) : Str :=
  "Hello! ".toList ++ env.botUsername ++
    " is now active and will respond to messages here.".toList

/-- `chat_member_handler(update, context)` (bot.py lines 296-325):
returns the session map afterwards and the messages sent. -/
def chat_member_handler (env : Env) (st : SessionMap) (ev : MemberEvent) :
    SessionMap × List (Int × Str) :=
  if ev.chatType = .channel then
    if ev.chatId ∈ env.allowedChannelIds then
      if ev.newStatus = .administrator then
        (st, if ev.canPost then [(ev.chatId, helloText env)] else [])
      else if ev.newStatus = .left ∨ ev.newStatus = .kicked then
        (if (lookupSession st ev.chatId).isSome then removeSession st ev.chatId else st, [])
      else (st, [])
    else (st, [])
  else (st, [])

/-! ### Definitions following the specification's words
(for comparison with the source; clearly marked) -/

/-- Modelled from the spec: removal of only the **first** occurrence of
`tok` (the spec's §4.1 group rule says "the first occurrence of that
token removed"; the source uses Python `str.replace`, which removes all
occurrences).  Fuelled like `replaceAllF`. -/
def specRemoveFirstF (tok : Str) : Nat → Str → Str
  | _, [] => []
  | 0, s => s
  | f + 1, c :: t =>
    if tok.isPrefixOf (c :: t) then (c :: t).drop tok.length
    else c :: specRemoveFirstF tok f t

/-- Modelled from the spec: raw text with the first occurrence of the
token removed and surrounding whitespace trimmed. -/
def specStripFirst (tok raw : Str) : Str :=
  strip (specRemoveFirstF tok raw.length raw)

/-- Modelled from the spec: the reserved control characters of the
transport's rich-text dialect (Telegram MarkdownV2), the ones §4.3 says
must be escaped to render as literal data.  (The full dialect also
reserves the backquote and the curly braces.) -/
def mdV2Reserved : List Char :=
  ['_', '*', '[', ']', '(', ')', '~', '>', '#', '+', '-', '=', '|', '.', '!']

/-- Modelled from the spec: "every occurrence of the dialect's reserved
control characters treated as literal data" — in MarkdownV2 a reserved
character renders literally exactly when it is preceded by a backslash. -/
def escapesReserved (t : Str) : Prop :=
  ∀ i c, t.get? i = some c → c ∈ mdV2Reserved →
    ∃ j, i = j + 1 ∧ t.get? j = some '\\'

/-! ### Sanity checks of the embedding on concrete inputs -/

example : split_message "ab cd".toList 3 = ["ab".toList, "cd".toList] := by decide

example : split_message "abcde".toList 2 = ["ab".toList, "cd".toList, "e".toList] := by decide

example : split_message " ".toList 1 = [] := by decide

example : split_message "a\nb cd".toList 4 = ["a".toList, "b cd".toList] := by decide

example : natToStr 3001 = "3001".toList := by decide

example : natToStr 0 = "0".toList := by decide

example : splitlines "a\nb".toList = ["a".toList, "b".toList] := by decide

example : splitlines "a\n".toList = ["a".toList] := by decide

example : splitlines "a\n\nb".toList = ["a".toList, [], "b".toList] := by decide

example : splitlines "".toList = [] := by decide

example : splitlines "\n".toList = [[]] := by decide

example : splitlines "a\rb".toList = ["a".toList, "b".toList] := by decide

example : splitlines "a\r\nb".toList = ["a".toList, "b".toList] := by decide

example : splitlines "a\r\n".toList = ["a".toList] := by decide

example : splitlines ('a' :: '\x0c' :: ['b']) = [['a'], ['b']] := by decide

example : splitlines ('a' :: '\x0b' :: '\r' :: ['b']) = [['a'], [], ['b']] := by decide

example :
    format_titles_with_low_line "# Hi\nbody".toList =
      ('#' :: ' ' :: 'H' :: lowLine :: 'i' :: lowLine :: '\n' :: "body".toList) := by
  decide

example : format_titles_with_low_line "*x*".toList = "*x*".toList := by decide

example : replaceAll "@bot".toList [] "@bot hi @bot".toList = " hi ".toList := by decide

example : replaceAll "aa".toList "b".toList "aaaa".toList = "bb".toList := by decide

example : containsTok "say @bot hi".toList "@bot".toList = true := by decide

example : containsTok "say hi".toList "@bot".toList = false := by decide

example : specStripFirst "@bot".toList "@bot hi @bot".toList = "hi @bot".toList := by
  decide

/-! ## Lemmas about the string primitives -/

theorem lstrip_length_le (s : Str) : (lstrip s).length ≤ s.length :=
  (List.dropWhile_suffix pyIsSpace).sublist.length_le

theorem rstrip_length_le (s : Str) : (rstrip s).length ≤ s.length := by
  have h := (List.dropWhile_suffix (l := s.reverse) pyIsSpace).sublist.length_le
  simpa [rstrip] using h

theorem strip_length_le (s : Str) : (strip s).length ≤ s.length :=
  le_trans (rstrip_length_le _) (lstrip_length_le s)

theorem strip_cons_of_space {c : Char} (t : Str) (hc : pyIsSpace c = true) :
    strip (c :: t) = strip t := by
  simp [strip, lstrip, List.dropWhile_cons, hc]

theorem rlast_eq_some {s : Str} {c : Char} {i : Nat} (h : rlast s c = some i) :
    s.get? i = some c := by
  induction s generalizing i with
  | nil => simp [rlast] at h
  | cons a t ih =>
    rw [rlast] at h
    cases ht : rlast t c with
    | some j =>
      rw [ht] at h
      cases h
      simpa using ih ht
    | none =>
      rw [ht] at h
      by_cases hac : a = c
      · simp only [if_pos hac] at h
        cases h
        simp [hac]
      · simp [if_neg hac] at h

theorem get?_take_of_lt {s : Str} {m i : Nat} {c : Char}
    (h : (s.take m).get? i = some c) : s.get? i = some c := by
  induction s generalizing m i with
  | nil => simp at h
  | cons a t ih =>
    cases m with
    | zero => simp at h
    | succ m =>
      cases i with
      | zero => simpa using h
      | succ i =>
        simp only [List.take_succ_cons, List.get?_cons_succ] at h ⊢
        exact ih h

theorem splitPoint_spec {text : Str} {m i : Nat} (h : splitPoint text m = some i) :
    i < m ∧ ∃ ch, text.get? i = some ch ∧ pyIsSpace ch = true := by
  rw [splitPoint] at h
  have htk : ∀ ch : Char, rlast (text.take m) ch = some i →
      i < m ∧ text.get? i = some ch := by
    intro ch hr
    have hg := rlast_eq_some hr
    have hlt : i < (text.take m).length := by
      have := List.get?_eq_some.mp hg
      exact this.1
    have hm : i < m := lt_of_lt_of_le hlt (by simpa using List.length_take_le m text)
    exact ⟨hm, get?_take_of_lt hg⟩
  cases hn : rlast (text.take m) '\n' with
  | some j =>
    rw [hn] at h
    cases h
    obtain ⟨h1, h2⟩ := htk '\n' hn
    exact ⟨h1, '\n', h2, by decide⟩
  | none =>
    rw [hn] at h
    obtain ⟨h1, h2⟩ := htk ' ' h
    exact ⟨h1, ' ', h2, by decide⟩

theorem drop_cons_of_get? {s : Str} {i : Nat} {c : Char} (h : s.get? i = some c) :
    s.drop i = c :: s.drop (i + 1) := by
  induction s generalizing i with
  | nil => simp at h
  | cons a t ih =>
    cases i with
    | zero => simp_all
    | succ i =>
      simp only [List.get?_cons_succ] at h
      simpa using ih h

/-- After a smart split at whitespace index `i`, the stripped remainder
is strictly shorter than the text by at least `i + 1` characters. -/
theorem strip_drop_length_lt {text : Str} {m i : Nat}
    (h : splitPoint text m = some i) :
    (strip (text.drop i)).length + i + 1 ≤ text.length := by
  obtain ⟨_, ch, hg, hsp⟩ := splitPoint_spec h
  have hd : text.drop i = ch :: text.drop (i + 1) := drop_cons_of_get? hg
  have hlt : i < text.length := (List.get?_eq_some.mp hg).1
  have : strip (text.drop i) = strip (text.drop (i + 1)) := by
    rw [hd, strip_cons_of_space _ hsp]
  rw [this]
  have h1 : (strip (text.drop (i + 1))).length ≤ (text.drop (i + 1)).length :=
    strip_length_le _
  have h2 : (text.drop (i + 1)).length = text.length - (i + 1) := by
    simp [List.length_drop]
  omega

theorem mem_goChunksF_length_le {m : Nat} (hm : 0 < m) :
    ∀ f text, text.length ≤ f → ∀ c ∈ goChunksF m f text, c.length ≤ m := by
  intro f
  induction f with
  | zero =>
    intro text hlen c hc
    have : text = [] := List.eq_nil_of_length_eq_zero (Nat.le_zero.mp hlen)
    subst this
    simp [goChunksF, strip, lstrip, rstrip] at hc
  | succ f ih =>
    intro text hlen c hc
    rw [goChunksF] at hc
    by_cases hlt : m < text.length
    · rw [if_pos hlt] at hc
      cases hsp : splitPoint text m with
      | some i =>
        rw [hsp] at hc
        rcases List.mem_cons.mp hc with rfl | hc'
        · have h1 : (strip (text.take i)).length ≤ (text.take i).length :=
            strip_length_le _
          have h2 : (text.take i).length ≤ i := by
            simpa using List.length_take_le i text
          have h3 : i < m := (splitPoint_spec hsp).1
          omega
        · have hrec := strip_drop_length_lt hsp
          exact ih (strip (text.drop i)) (by omega) c hc'
      | none =>
        rw [hsp] at hc
        rcases List.mem_cons.mp hc with rfl | hc'
        · simpa using List.length_take_le m text
        · have h2 : (text.drop m).length = text.length - m := by
            simp [List.length_drop]
          exact ih (text.drop m) (by omega) c hc'
    · rw [if_neg hlt] at hc
      by_cases he : (strip text).isEmpty
      · simp [he] at hc
      · simp only [he, Bool.not_false, if_pos] at hc
        rcases List.mem_singleton.mp hc with rfl
        have := strip_length_le text
        omega

/-- **C1.** For every input text and every `max_chunk_len ≥ 1`, every
chunk `split_message` produces has length at most `max_chunk_len` and
is non-empty. -/
theorem c1_split_message_chunks_bounded_nonempty (text : Str) (m : Nat)
    (hm : 1 ≤ m) : ∀ c ∈ split_message text m, c.length ≤ m ∧ c ≠ [] := by
  intro c hc
  rw [split_message, List.mem_filter] at hc
  obtain ⟨hmem, hne⟩ := hc
  refine ⟨mem_goChunksF_length_le hm text.length text le_rfl c hmem, ?_⟩
  cases c with
  | nil => simp at hne
  | cons a t => simp

/-- Witness for C1 at a concrete input: `split_message "ab cd" 3 = ["ab", "cd"]`. -/
theorem c1_split_message_chunks_bounded_nonempty_witness :
    ("ab".toList).length ≤ 3 ∧ "ab".toList ≠ [] :=
  c1_split_message_chunks_bounded_nonempty "ab cd".toList 3 (by decide)
    "ab".toList (by decide)

/-! ## C3: single-chunk identity -/

/-- **C3, counterexample.** For whitespace-only text the claim fails:
`" "` fits in one chunk of size 1, yet `split_message` returns `[]`,
not the one-element sequence containing the (trimmed) text. -/
theorem c3_counterexample :
    split_message " ".toList 1 = [] ∧
      (([] : List Str) ≠ [" ".toList] ∧ ([] : List Str) ≠ [strip " ".toList]) := by
  decide

/-- **C3, amended.** If `length text ≤ max_chunk_len` and the text is
not whitespace-only, `split_message` returns exactly `[strip text]`;
(for whitespace-only text it returns `[]`). -/
theorem c3_single_chunk_identity (text : Str) (m : Nat)
    (hlen : text.length ≤ m) (hst : strip text ≠ []) :
    split_message text m = [strip text] := by
  have hne : text ≠ [] := by
    intro h
    exact hst (by simp [h, strip, lstrip, rstrip])
  have hl : 0 < text.length := List.length_pos.mpr hne
  obtain ⟨f, hf⟩ : ∃ f, text.length = f + 1 := ⟨text.length - 1, by omega⟩
  have hemp : (strip text).isEmpty = false := by
    cases h : strip text with
    | nil => exact absurd h hst
    | cons a t => simp
  rw [split_message, hf, goChunksF, if_neg (by omega), hemp]
  simp [hemp]

/-- Witness for the amended C3 at a concrete input. -/
theorem c3_single_chunk_identity_witness :
    split_message " hi ".toList 4 = [strip " hi ".toList] :=
  c3_single_chunk_identity " hi ".toList 4 (by decide) (by decide)

/-! ## C5: channel allow-list gating -/

/-- **C5.** A channel-surface event whose chat id is not allow-listed
is rejected before anything happens: the session map is unchanged, no
message is sent, and no backend call is made. -/
theorem c5_channel_not_allowed_rejected (env : Env) (backend : Str → Str)
    (st : SessionMap) (ev : MsgEvent) (hct : ev.chatType = .channel)
    (hmem : ev.chatId ∉ env.allowedChannelIds) :
    handle_message env backend st ev = ⟨st, [], []⟩ := by
  obtain ⟨cid, ct, txt⟩ := ev
  cases hct
  by_cases h : txt = []
  · simp [handle_message, h]
  · simp [handle_message, h, classify, hmem]

/-- Witness for C5 at a concrete input. -/
theorem c5_channel_not_allowed_rejected_witness :
    handle_message ⟨"bot".toList, [-100]⟩ (fun _ => []) [(-100, [])]
        ⟨-200, .channel, "hi".toList⟩ =
      ⟨[(-100, [])], [], []⟩ :=
  c5_channel_not_allowed_rejected _ _ _ _ rfl (by decide)

/-! ## C7: empty or whitespace-only raw text -/

/-- On every surface, `classify` applied to empty effective text never
accepts with non-empty text. -/
theorem classify_empty_text (env : Env) (ct : ChatType) (cid : Int) :
    classify env ct cid [] = none ∨ ∃ b, classify env ct cid [] = some ([], b) := by
  cases ct with
  | privateChat => exact Or.inr ⟨false, rfl⟩
  | channel =>
    by_cases h : cid ∈ env.allowedChannelIds
    · exact Or.inr ⟨true, by simp [classify, h]⟩
    · exact Or.inl (by simp [classify, h])
  | group =>
    left
    simp [classify, containsTok, List.isPrefixOf]
  | supergroup =>
    left
    simp [classify, containsTok, List.isPrefixOf]

/-- **C7.** An inbound event whose raw text is empty or whitespace-only
is rejected on every surface: no outbound send, no backend call, and
the session map untouched. -/
theorem c7_blank_text_silent (env : Env) (backend : Str → Str)
    (st : SessionMap) (ev : MsgEvent) (hblank : strip ev.text = []) :
    handle_message env backend st ev = ⟨st, [], []⟩ := by
  obtain ⟨cid, ct, txt⟩ := ev
  by_cases h : txt = []
  · simp [handle_message, h]
  · simp only [handle_message, if_neg h]
    simp only at hblank
    rw [hblank]
    rcases classify_empty_text env ct cid with hc | ⟨b, hc⟩
    · rw [hc]
    · rw [hc]
      simp

/-- Witness for C7 at a concrete input (whitespace-only group message). -/
theorem c7_blank_text_silent_witness :
    handle_message ⟨"bot".toList, []⟩ (fun _ => "ok".toList) [(7, [])]
        ⟨7, .group, "  ".toList⟩ =
      ⟨[(7, [])], [], []⟩ :=
  c7_blank_text_silent _ _ _ _ (by decide)

/-! ## C10: whitespace-only backend reply -/

/-- **C10.** For an accepted event that passes the length guard, if the
backend's reply is empty or whitespace-only, the router sends nothing
at all — while the backend was indeed called once. -/
theorem c10_blank_reply_no_send (env : Env) (backend : Str → Str)
    (st : SessionMap) (ev : MsgEvent) (eff : Str) (b : Bool)
    (hcl : classify env ev.chatType ev.chatId (strip ev.text) = some (eff, b))
    (hne : eff ≠ []) (hlen : eff.length ≤ MAX_USER_MESSAGE_CHARS)
    (hrep : strip (backend eff) = []) :
    (handle_message env backend st ev).sends = [] ∧
      (handle_message env backend st ev).backendCalls = [eff] := by
  obtain ⟨cid, ct, txt⟩ := ev
  simp only at hcl
  by_cases h : txt = []
  · exfalso
    rw [h] at hcl
    have hs : strip ([] : Str) = [] := rfl
    rw [hs] at hcl
    rcases classify_empty_text env ct cid with hc | ⟨b', hc⟩
    · rw [hc] at hcl; exact Option.noConfusion hcl
    · rw [hc] at hcl
      have : eff = [] := by
        cases hcl
        rfl
      exact hne this
  · simp only [handle_message, if_neg h]
    rw [hcl]
    simp only [if_neg hne, if_neg (by omega : ¬ MAX_USER_MESSAGE_CHARS < eff.length)]
    rw [if_pos hrep]
    exact ⟨rfl, rfl⟩

/-- Witness for C10 at a concrete input. -/
theorem c10_blank_reply_no_send_witness :
    (handle_message ⟨"bot".toList, []⟩ (fun _ => " ".toList) []
        ⟨1, .privateChat, "hi".toList⟩).sends = [] ∧
      (handle_message ⟨"bot".toList, []⟩ (fun _ => " ".toList) []
        ⟨1, .privateChat, "hi".toList⟩).backendCalls = ["hi".toList] :=
  c10_blank_reply_no_send _ _ _ _ "hi".toList false (by decide) (by decide)
    (by decide) (by decide)

/-! ## C4: the input length guard -/

/-- `strip` leaves a run of a non-whitespace character unchanged. -/
theorem strip_replicate (c : Char) (h : pyIsSpace c = false) (n : Nat) :
    strip (List.replicate n c) = List.replicate n c := by
  have hd : (List.replicate n c).dropWhile pyIsSpace = List.replicate n c := by
    cases n with
    | zero => rfl
    | succ n =>
      rw [List.replicate_succ, List.dropWhile_cons_of_neg (by simp [h])]
  simp [strip, lstrip, rstrip, hd, List.reverse_replicate]

/-- The outcome of `handle_message` on a 3001-character private message
to a fresh context: the length guard fires, one send, no backend call,
session map untouched. -/
theorem handle_message_long_private :
    handle_message ⟨"bot".toList, []⟩ (fun _ => []) []
        ⟨1, .privateChat, List.replicate 3001 'a'⟩ =
      ⟨[], [(1, tooLongText (List.replicate 3001 'a').length)], []⟩ := by
  have hstrip : strip (List.replicate 3001 'a') = List.replicate 3001 'a' :=
    strip_replicate 'a' (by decide) 3001
  have hlen : (List.replicate 3001 'a' : Str).length = 3001 :=
    List.length_replicate 3001 'a'
  have hne : (List.replicate 3001 'a' : Str) ≠ [] := by
    intro h
    rw [h] at hlen
    exact absurd hlen (by decide)
  simp only [handle_message, classify, hstrip]
  rw [if_neg hne, if_neg hne,
    if_pos (by rw [hlen]; decide : MAX_USER_MESSAGE_CHARS <
      (List.replicate 3001 'a').length)]

/-- **C4, counterexample.** A 3001-character private message to a fresh
context triggers the length guard (one send, zero backend calls) — but
the session store has **no** entry for the context afterwards: the
guard fires before `get_or_create`, not after. -/
theorem c4_counterexample :
    (handle_message ⟨"bot".toList, []⟩ (fun _ => []) []
        ⟨1, .privateChat, List.replicate 3001 'a'⟩).sends.length = 1 ∧
      (handle_message ⟨"bot".toList, []⟩ (fun _ => []) []
        ⟨1, .privateChat, List.replicate 3001 'a'⟩).backendCalls = [] ∧
      lookupSession
        (handle_message ⟨"bot".toList, []⟩ (fun _ => []) []
          ⟨1, .privateChat, List.replicate 3001 'a'⟩).sessions 1 = none := by
  refine ⟨?_, ?_, ?_⟩ <;> rw [handle_message_long_private] <;> rfl

/-- **C4, amended.** When the effective text exceeds
`MAX_USER_MESSAGE_CHARS`, the router emits exactly one "too long"
message and terminates with zero backend calls — and the length guard
fires **before** `get_or_create`: the session map is left exactly as it
was (in particular no entry is created for the context). -/
theorem c4_length_guard_before_session (env : Env) (backend : Str → Str)
    (st : SessionMap) (ev : MsgEvent) (eff : Str) (b : Bool)
    (hcl : classify env ev.chatType ev.chatId (strip ev.text) = some (eff, b))
    (hlen : MAX_USER_MESSAGE_CHARS < eff.length) :
    handle_message env backend st ev = ⟨st, [(ev.chatId, tooLongText eff.length)], []⟩ := by
  obtain ⟨cid, ct, txt⟩ := ev
  simp only at hcl ⊢
  have hne : eff ≠ [] := by
    intro h
    rw [h] at hlen
    simp [MAX_USER_MESSAGE_CHARS] at hlen
  by_cases h : txt = []
  · exfalso
    rw [h] at hcl
    have hs : strip ([] : Str) = [] := rfl
    rw [hs] at hcl
    rcases classify_empty_text env ct cid with hc | ⟨b', hc⟩
    · rw [hc] at hcl; exact Option.noConfusion hcl
    · rw [hc] at hcl
      exact hne (by cases hcl; rfl)
  · simp only [handle_message, if_neg h]
    rw [hcl]
    simp only [if_neg hne, if_pos hlen]

/-- Witness for the amended C4 at a concrete input. -/
theorem c4_length_guard_before_session_witness :
    handle_message ⟨"bot".toList, []⟩ (fun _ => []) []
        ⟨1, .privateChat, List.replicate 3001 'a'⟩ =
      ⟨[], [(1, tooLongText (List.replicate 3001 'a').length)], []⟩ :=
  c4_length_guard_before_session ⟨"bot".toList, []⟩ (fun _ => []) []
    ⟨1, .privateChat, List.replicate 3001 'a'⟩ (List.replicate 3001 'a') false
    (by rw [show (⟨1, .privateChat, List.replicate 3001 'a'⟩ : MsgEvent).text =
          List.replicate 3001 'a' from rfl,
        strip_replicate 'a' (by decide) 3001]
        rfl)
    (by rw [List.length_replicate]; decide)

/-! ## C2: group mention stripping -/

/-- **C2, counterexample.** With bot handle `"bot"` and raw text
`"@bot hi @bot"`, the code accepts with effective text `"hi"` — every
occurrence of the token is removed (Python `str.replace`), whereas
removing only the first occurrence and trimming would give
`"hi @bot"`. -/
theorem c2_counterexample :
    classify ⟨"bot".toList, []⟩ .group 1 (strip "@bot hi @bot".toList) =
        some ("hi".toList, false) ∧
      specStripFirst ('@' :: "bot".toList) "@bot hi @bot".toList = "hi @bot".toList ∧
      "hi".toList ≠ "hi @bot".toList := by
  decide

/-- **C2, amended.** For a group-surface event: if the raw text
contains the addressing token `"@" + bot_handle`, the admission step
accepts with effective text equal to the raw text with **all**
occurrences of the token removed and surrounding whitespace trimmed,
rejecting if that leaves nothing; if the token is absent it rejects. -/
theorem c2_group_mention_stripping (env : Env) (cid : Int) (userText : Str)
    (hu : env.botUsername ≠ []) :
    classify env .group cid userText =
      (if containsTok userText ('@' :: env.botUsername) = true then
        (if strip (replaceAll ('@' :: env.botUsername) [] userText) = [] then none
         else some (strip (replaceAll ('@' :: env.botUsername) [] userText), false))
       else none) := by
  have hu' : env.botUsername.isEmpty = false := by
    cases h : env.botUsername with
    | nil => exact absurd h hu
    | cons a t => simp
  simp only [classify, hu', Bool.not_false, Bool.true_and]
  by_cases hin : containsTok userText ('@' :: env.botUsername) = true
  · rw [hin, if_pos rfl]
    by_cases hst : strip (replaceAll ('@' :: env.botUsername) [] userText) = []
    · simp [hst]
    · have : (strip (replaceAll ('@' :: env.botUsername) [] userText)).isEmpty = false := by
        cases h : strip (replaceAll ('@' :: env.botUsername) [] userText) with
        | nil => exact absurd h hst
        | cons a t => simp
      simp [this, hst]
  · have : containsTok userText ('@' :: env.botUsername) = false := by
      cases h : containsTok userText ('@' :: env.botUsername) with
      | false => rfl
      | true => exact absurd h hin
    simp [this]

/-- Witness for the amended C2 at a concrete input. -/
theorem c2_group_mention_stripping_witness :
    classify ⟨"bot".toList, []⟩ .group 1 "@bot hello".toList =
      some ("hello".toList, false) :=
  (c2_group_mention_stripping ⟨"bot".toList, []⟩ 1 "@bot hello".toList
    (by decide)).trans (by decide)

/-! ## C6: session eviction on membership loss -/

theorem lookupSession_removeSession_self (st : SessionMap) (id : Int) :
    lookupSession (removeSession st id) id = none := by
  induction st with
  | nil => rfl
  | cons p t ih =>
    obtain ⟨k, h⟩ := p
    by_cases hk : k = id
    · simp [removeSession, hk] at ih ⊢
      exact ih
    · simp only [removeSession, List.filter_cons] at ih ⊢
      simp [hk, lookupSession, ih]

theorem removeSession_of_lookup_none {st : SessionMap} {id : Int}
    (h : lookupSession st id = none) : removeSession st id = st := by
  induction st with
  | nil => rfl
  | cons p t ih =>
    obtain ⟨k, v⟩ := p
    rw [lookupSession] at h
    by_cases hk : k = id
    · rw [if_pos hk] at h
      exact Option.noConfusion h
    · rw [if_neg hk] at h
      simp only [removeSession, List.filter_cons] at ih ⊢
      simp [hk, ih h]

theorem lookupSession_insertSession_self (st : SessionMap) (id : Int)
    (h : List (Str × Str)) : lookupSession (insertSession st id h) id = some h := by
  simp [insertSession, lookupSession]

/-- **C6, counterexample.** A channel context (`-200`) that is **not**
allow-listed but has a session entry: when the bot's membership there
transitions to `Left`, `chat_member_handler` does **not** remove the
entry — eviction only happens for allow-listed channels. -/
theorem c6_counterexample :
    chat_member_handler ⟨"bot".toList, [-100]⟩ [(-200, [])]
        ⟨-200, .channel, .member, .left, false⟩ =
      ([(-200, [])], []) ∧
      lookupSession [((-200 : Int), ([] : List (Str × Str)))] (-200) = some [] := by
  decide

/-- **C6, amended.** For a membership transition of the bot to `Left`
or `Kicked` in an **allow-listed** channel context, the watcher removes
the session entry for that context if one exists (afterwards the lookup
is `none`), does nothing when no entry is present, is idempotent, and a
subsequent `get_or_create` yields a fresh empty-history session. -/
theorem c6_membership_eviction (env : Env) (st : SessionMap) (ev : MemberEvent)
    (hct : ev.chatType = .channel) (hmem : ev.chatId ∈ env.allowedChannelIds)
    (hst : ev.newStatus = .left ∨ ev.newStatus = .kicked) :
    lookupSession (chat_member_handler env st ev).1 ev.chatId = none ∧
      (lookupSession st ev.chatId = none → (chat_member_handler env st ev).1 = st) ∧
      (chat_member_handler env (chat_member_handler env st ev).1 ev).1 =
        (chat_member_handler env st ev).1 ∧
      lookupSession (getOrCreate (chat_member_handler env st ev).1 ev.chatId)
        ev.chatId = some [] := by
  have hadm : ev.newStatus ≠ .administrator := by
    rcases hst with h | h <;> rw [h] <;> intro hc <;> exact MemberStatus.noConfusion hc
  have hstep : ∀ s : SessionMap, (chat_member_handler env s ev).1 =
      (if (lookupSession s ev.chatId).isSome then removeSession s ev.chatId else s) := by
    intro s
    rw [chat_member_handler, if_pos hct, if_pos hmem, if_neg hadm, if_pos hst]
  have hnone : lookupSession (chat_member_handler env st ev).1 ev.chatId = none := by
    rw [hstep]
    by_cases h : (lookupSession st ev.chatId).isSome
    · rw [if_pos h]
      exact lookupSession_removeSession_self st ev.chatId
    · rw [if_neg h]
      cases hl : lookupSession st ev.chatId with
      | none => rfl
      | some v => rw [hl] at h; simp at h
  refine ⟨hnone, ?_, ?_, ?_⟩
  · intro h
    rw [hstep, h]
    rfl
  · rw [hstep (chat_member_handler env st ev).1, hnone]
    rfl
  · rw [getOrCreate, if_pos hnone]
    exact lookupSession_insertSession_self _ _ _

/-- Witness for the amended C6 at a concrete input. -/
theorem c6_membership_eviction_witness :
    lookupSession
        (chat_member_handler ⟨"bot".toList, [-100]⟩ [(-100, [("a".toList, "b".toList)])]
          ⟨-100, .channel, .member, .kicked, false⟩).1 (-100) = none ∧
      (lookupSession [((-100 : Int), [("a".toList, "b".toList)])] (-100) = none →
        (chat_member_handler ⟨"bot".toList, [-100]⟩ [(-100, [("a".toList, "b".toList)])]
          ⟨-100, .channel, .member, .kicked, false⟩).1 =
          [(-100, [("a".toList, "b".toList)])]) ∧
      (chat_member_handler ⟨"bot".toList, [-100]⟩
          (chat_member_handler ⟨"bot".toList, [-100]⟩ [(-100, [("a".toList, "b".toList)])]
            ⟨-100, .channel, .member, .kicked, false⟩).1
          ⟨-100, .channel, .member, .kicked, false⟩).1 =
        (chat_member_handler ⟨"bot".toList, [-100]⟩ [(-100, [("a".toList, "b".toList)])]
          ⟨-100, .channel, .member, .kicked, false⟩).1 ∧
      lookupSession
        (getOrCreate
          (chat_member_handler ⟨"bot".toList, [-100]⟩ [(-100, [("a".toList, "b".toList)])]
            ⟨-100, .channel, .member, .kicked, false⟩).1 (-100)) (-100) = some [] :=
  c6_membership_eviction ⟨"bot".toList, [-100]⟩ [(-100, [("a".toList, "b".toList)])]
    ⟨-100, .channel, .member, .kicked, false⟩ rfl (by decide) (Or.inr rfl)

/-! ## C9: escaping of reserved markup characters -/

/-- **C9, counterexample.** The reply `"*x*"` reaches the segmenter
with its reserved characters (`'*'`) completely unescaped:
`format_titles_with_low_line` is a decoration pass, not an escaper. -/
theorem c9_counterexample :
    ¬ escapesReserved (format_titles_with_low_line "*x*".toList) := by
  intro h
  obtain ⟨j, hj, _⟩ := h 0 '*' (by decide) (by decide)
  exact Nat.noConfusion hj

theorem splitOnBreaks_no_break {s : Str}
    (h : ∀ c ∈ s, isLineBreak c = false) : splitOnBreaks s = [s] := by
  induction s with
  | nil => rfl
  | cons c t ih =>
    have hc : isLineBreak c = false := h c (List.mem_cons_self c t)
    have hcb : ¬ isLineBreak c = true := by
      rw [hc]
      exact Bool.noConfusion
    have hcr : ¬ c = '\r' := by
      intro hr
      rw [hr] at hc
      exact Bool.noConfusion hc
    have ht : ∀ c' ∈ t, isLineBreak c' = false :=
      fun c' hm => h c' (List.mem_cons_of_mem c hm)
    cases t with
    | nil => rw [splitOnBreaks, if_neg hcb]
    | cons c' t' =>
      rw [splitOnBreaks, if_neg (fun hp => hcr hp.1), if_neg hcb, ih ht]

/-- A text free of line-boundary characters that does not match the
header pattern passes through `format_titles_with_low_line` unchanged. -/
theorem format_titles_passthrough (reply : Str) (hne : reply ≠ [])
    (hnb : ∀ c ∈ reply, isLineBreak c = false)
    (hhd : matchHeader reply = none) :
    format_titles_with_low_line reply = reply := by
  have hsl : splitlines reply = [reply] := by
    rw [splitlines, if_neg hne, splitOnBreaks_no_break hnb]
    rw [if_neg (by simp [hne])]
  rw [format_titles_with_low_line, if_neg hne, hsl]
  simp only [List.map_cons, List.map_nil, processLine, hhd]
  rfl

/-- **C9, amended.** No escaping transformation exists in the pipeline:
for any single-line backend reply (no line-boundary characters) that
does not match the markdown header pattern, the text handed to the
segmenter (and then to outbound send) is exactly the reply — every
reserved character passes through unchanged, as literal plain text (the
transport send uses no parse mode). -/
theorem c9_no_escaping_passthrough (reply : Str) (hne : reply ≠ [])
    (hnb : ∀ c ∈ reply, isLineBreak c = false)
    (hhd : matchHeader reply = none) :
    format_titles_with_low_line reply = reply :=
  format_titles_passthrough reply hne hnb hhd

/-- Witness for the amended C9 at a concrete input. -/
theorem c9_no_escaping_passthrough_witness :
    format_titles_with_low_line "*bold* _it_".toList = "*bold* _it_".toList :=
  c9_no_escaping_passthrough "*bold* _it_".toList (by decide) (by decide) (by decide)

/-! ## C8: transport hard limit on outbound sends

First: length bounds on decimal rendering, part headers, and the
composed messages; a bound on the number of chunks; a bound on the
length growth of `format_titles_with_low_line`. -/

theorem natDigitsAux_zero_arg : ∀ f, natDigitsAux f 0 = [] := by
  intro f
  cases f <;> rfl

theorem natDigitsAux_congr : ∀ f₁ f₂ n, n ≤ f₁ → n ≤ f₂ →
    natDigitsAux f₁ n = natDigitsAux f₂ n := by
  intro f₁
  induction f₁ with
  | zero =>
    intro f₂ n h1 _
    have hn : n = 0 := Nat.le_zero.mp h1
    subst hn
    rw [natDigitsAux_zero_arg, natDigitsAux_zero_arg]
  | succ f ih =>
    intro f₂ n h1 h2
    cases n with
    | zero => rw [natDigitsAux_zero_arg, natDigitsAux_zero_arg]
    | succ n =>
      cases f₂ with
      | zero => exact absurd h2 (by omega)
      | succ f₂ =>
        simp only [natDigitsAux]
        have hdiv : (n + 1) / 10 < n + 1 :=
          Nat.div_lt_self (Nat.succ_pos n) (by norm_num)
        rw [ih f₂ ((n + 1) / 10) (by omega) (by omega)]

theorem natDigits_eq_of_ne_zero {n : Nat} (h : n ≠ 0) :
    natDigits n = n % 10 :: natDigits (n / 10) := by
  obtain ⟨m, rfl⟩ : ∃ m, n = m + 1 := ⟨n - 1, by omega⟩
  show natDigitsAux (m + 1) (m + 1) = _
  simp only [natDigitsAux]
  have hdiv : (m + 1) / 10 < m + 1 := Nat.div_lt_self (Nat.succ_pos m) (by norm_num)
  rw [natDigitsAux_congr m ((m + 1) / 10) ((m + 1) / 10) (by omega) le_rfl]
  rfl

theorem natDigits_length_le : ∀ k n, n < 10 ^ k → (natDigits n).length ≤ k := by
  intro k
  induction k with
  | zero =>
    intro n h
    have hn : n = 0 := by simpa using h
    subst hn
    rw [natDigits, natDigitsAux_zero_arg]
    exact le_rfl
  | succ k ih =>
    intro n h
    by_cases h0 : n = 0
    · subst h0
      rw [natDigits, natDigitsAux_zero_arg]
      simp
    · rw [natDigits_eq_of_ne_zero h0]
      have hlt : n / 10 < 10 ^ k := by
        rw [Nat.div_lt_iff_lt_mul (by norm_num : 0 < 10)]
        calc n < 10 ^ (k + 1) := h
          _ = 10 ^ k * 10 := by ring
      have := ih _ hlt
      simp only [List.length_cons]
      omega

theorem natDigits_pow10_length : ∀ k, (natDigits (10 ^ k)).length = k + 1 := by
  intro k
  induction k with
  | zero => decide
  | succ k ih =>
    have hne : 10 ^ (k + 1) ≠ 0 := (pow_pos (by norm_num : (0 : Nat) < 10) (k + 1)).ne'
    rw [natDigits_eq_of_ne_zero hne]
    have hdiv : 10 ^ (k + 1) / 10 = 10 ^ k := by
      rw [pow_succ]
      exact Nat.mul_div_cancel _ (by norm_num)
    rw [List.length_cons, hdiv, ih]

theorem natToStr_length_of_ne_zero {n : Nat} (h : n ≠ 0) :
    (natToStr n).length = (natDigits n).length := by
  rw [natToStr, if_neg h, List.length_reverse, List.length_map]

theorem natToStr_length_le {k n : Nat} (hk : 1 ≤ k) (h : n < 10 ^ k) :
    (natToStr n).length ≤ k := by
  by_cases h0 : n = 0
  · subst h0
    simpa [natToStr] using hk
  · rw [natToStr_length_of_ne_zero h0]
    exact natDigits_length_le k n h

theorem partHeader_length (i n : Nat) (h : 1 < n) :
    (partHeader i n).length = 10 + (natToStr i).length + (natToStr n).length := by
  rw [partHeader, if_pos h]
  have h6 : ("(Part ".toList).length = 6 := by decide
  simp only [List.length_append, List.length_cons, List.length_singleton,
    List.length_nil]
  omega

theorem partHeader_length_le (i n k : Nat) (hk : 1 ≤ k) (hi : i < 10 ^ k)
    (hn : n < 10 ^ k) : (partHeader i n).length ≤ 10 + 2 * k := by
  by_cases h : 1 < n
  · rw [partHeader_length i n h]
    have h1 := natToStr_length_le hk hi
    have h2 := natToStr_length_le hk hn
    omega
  · rw [partHeader, if_neg h]
    simp

theorem finalizeMessage_length_le (header content : Str)
    (h : header.length ≤ MAX_TELEGRAM_MESSAGE_CHARS) :
    (finalizeMessage header content).length ≤ MAX_TELEGRAM_MESSAGE_CHARS := by
  simp only [finalizeMessage]
  split_ifs with hc
  · simp only [List.length_append, List.length_take]
    omega
  · simp only [not_lt] at hc
    exact hc

theorem finalizeMessage_header_prefix (header content : Str) :
    header <+: finalizeMessage header content := by
  simp only [finalizeMessage]
  split_ifs with hc
  · exact ⟨_, rfl⟩
  · exact ⟨_, rfl⟩

theorem goChunksF_count_le {m : Nat} (hm : 0 < m) :
    ∀ f text, text.length ≤ f → (goChunksF m f text).length ≤ text.length := by
  intro f
  induction f with
  | zero =>
    intro text hlen
    have : text = [] := List.eq_nil_of_length_eq_zero (Nat.le_zero.mp hlen)
    subst this
    simp [goChunksF, strip, lstrip, rstrip]
  | succ f ih =>
    intro text hlen
    rw [goChunksF]
    by_cases hlt : m < text.length
    · rw [if_pos hlt]
      cases hsp : splitPoint text m with
      | some i =>
        have hrec := strip_drop_length_lt hsp
        have := ih (strip (text.drop i)) (by omega)
        simp only [List.length_cons]
        omega
      | none =>
        have h2 : (text.drop m).length = text.length - m := by
          simp [List.length_drop]
        have := ih (text.drop m) (by omega)
        simp only [List.length_cons]
        omega
    · rw [if_neg hlt]
      cases he : (strip text).isEmpty with
      | true => simp
      | false =>
        have htne : text ≠ [] := by
          intro h
          subst h
          simp [strip, lstrip, rstrip] at he
        have := List.length_pos.mpr htne
        simp only [Bool.not_false, if_pos, List.length_singleton]
        omega

theorem split_message_count_le (text : Str) (m : Nat) (hm : 0 < m) :
    (split_message text m).length ≤ text.length :=
  le_trans (List.length_filter_le _ _) (goChunksF_count_le hm _ _ le_rfl)

theorem underlineTitle_length (t : Str) : (underlineTitle t).length = 2 * t.length := by
  induction t with
  | nil => rfl
  | cons c t ih =>
    simp only [underlineTitle] at ih ⊢
    simp only [List.flatMap_cons, List.length_append, List.length_cons,
      List.length_nil, List.length_cons, ih]
    omega

theorem takeWhile_dropWhile_length (p : Char → Bool) (l : Str) :
    (l.takeWhile p).length + (l.dropWhile p).length = l.length := by
  induction l with
  | nil => rfl
  | cons a t ih =>
    cases h : p a with
    | false => simp [List.takeWhile_cons, List.dropWhile_cons, h]
    | true =>
      simp only [List.takeWhile_cons, List.dropWhile_cons, h, if_true,
        List.length_cons]
      omega

theorem processLine_length_le (l : Str) : (processLine l).length ≤ 2 * l.length := by
  cases hm : matchHeader l with
  | none =>
    simp only [processLine, hm]
    omega
  | some x =>
    obtain ⟨hashes, space, title⟩ := x
    simp only [processLine, hm]
    simp only [matchHeader] at hm
    split at hm
    · exact Option.noConfusion hm
    · injection hm with hm'
      injection hm' with e1 hm''
      injection hm'' with e2 e3
      subst e1
      subst e2
      subst e3
      split_ifs with h
      · simp only [List.length_append, underlineTitle_length]
        have h1 := takeWhile_dropWhile_length (fun c => c = '#') l
        have h2 := takeWhile_dropWhile_length pyIsSpace
          (l.dropWhile (fun c => c = '#'))
        omega
      · omega

theorem joinNl_length : ∀ ls : List Str, ls ≠ [] →
    (joinNl ls).length + 1 = (ls.map List.length).sum + ls.length := by
  intro ls
  induction ls with
  | nil => intro h; exact absurd rfl h
  | cons l t ih =>
    intro _
    cases t with
    | nil => simp [joinNl]
    | cons l' t' =>
      have hrec := ih (by simp)
      simp only [joinNl, List.length_append, List.length_cons, List.map_cons,
        List.sum_cons] at hrec ⊢
      omega

theorem splitOnBreaks_ne_nil (s : Str) : splitOnBreaks s ≠ [] := by
  cases s with
  | nil => simp [splitOnBreaks]
  | cons c t =>
    cases t with
    | nil =>
      rw [splitOnBreaks]
      split_ifs <;> simp
    | cons c' t' =>
      rw [splitOnBreaks]
      split_ifs with h1 h2
      · simp
      · simp
      · cases h' : splitOnBreaks (c' :: t') <;> simp

theorem splitOnBreaks_sum_le_aux : ∀ n (s : Str), s.length ≤ n →
    ((splitOnBreaks s).map List.length).sum + (splitOnBreaks s).length ≤
      s.length + 1 := by
  intro n
  induction n with
  | zero =>
    intro s h
    have hs : s = [] := List.eq_nil_of_length_eq_zero (Nat.le_zero.mp h)
    subst hs
    simp [splitOnBreaks]
  | succ n ih =>
    intro s h
    cases s with
    | nil => simp [splitOnBreaks]
    | cons c t =>
      cases t with
      | nil =>
        rw [splitOnBreaks]
        split_ifs <;> simp
      | cons c' t' =>
        simp only [List.length_cons] at h
        rw [splitOnBreaks]
        split_ifs with h1 h2
        · have hrec := ih t' (by omega)
          simp only [List.map_cons, List.sum_cons, List.length_cons,
            List.length_nil]
          omega
        · have hrec := ih (c' :: t') (by simp only [List.length_cons]; omega)
          simp only [List.map_cons, List.sum_cons, List.length_cons,
            List.length_nil] at hrec ⊢
          omega
        · cases hsp : splitOnBreaks (c' :: t') with
          | nil => exact absurd hsp (splitOnBreaks_ne_nil (c' :: t'))
          | cons hd r =>
            have hrec := ih (c' :: t') (by simp only [List.length_cons]; omega)
            rw [hsp] at hrec
            simp only [List.map_cons, List.sum_cons, List.length_cons] at hrec ⊢
            omega

theorem splitOnBreaks_sum_le (s : Str) :
    ((splitOnBreaks s).map List.length).sum + (splitOnBreaks s).length ≤
      s.length + 1 :=
  splitOnBreaks_sum_le_aux s.length s le_rfl

theorem splitOnBreaks_eq_single_nil {s : Str} (h : splitOnBreaks s = [[]]) :
    s = [] := by
  cases s with
  | nil => rfl
  | cons c t =>
    exfalso
    cases t with
    | nil =>
      rw [splitOnBreaks] at h
      split_ifs at h
      · injection h with _ h'
        exact List.noConfusion h'
      · injection h with h' _
        exact List.noConfusion h'
    | cons c' t' =>
      rw [splitOnBreaks] at h
      split_ifs at h with h1 h2
      · injection h with _ h'
        exact splitOnBreaks_ne_nil t' h'
      · injection h with _ h'
        exact splitOnBreaks_ne_nil (c' :: t') h'
      · cases hsp : splitOnBreaks (c' :: t') with
        | nil => exact splitOnBreaks_ne_nil (c' :: t') hsp
        | cons hd r =>
          rw [hsp] at h
          injection h with hh _
          exact List.noConfusion hh

theorem splitlines_sum_le (s : Str) :
    ((splitlines s).map List.length).sum + (splitlines s).length ≤ s.length + 1 := by
  simp only [splitlines]
  split_ifs with h0 hlast
  · simp
  · have hne := splitOnBreaks_ne_nil s
    have hsum := splitOnBreaks_sum_le s
    have hgl : (splitOnBreaks s).getLast hne = [] := by
      rw [List.getLast?_eq_getLast _ hne] at hlast
      injection hlast
    have hd : splitOnBreaks s = (splitOnBreaks s).dropLast ++ [[]] := by
      conv_lhs => rw [← List.dropLast_append_getLast hne]
      rw [hgl]
    rw [hd] at hsum
    simp only [List.map_append, List.sum_append, List.length_append, List.map_cons,
      List.sum_cons, List.length_cons, List.map_nil, List.sum_nil, List.length_nil] at hsum
    omega
  · have hsum := splitOnBreaks_sum_le s
    omega

theorem splitlines_ne_nil {s : Str} (h : s ≠ []) : splitlines s ≠ [] := by
  simp only [splitlines, if_neg h]
  split_ifs with hlast
  · intro hdrop
    have hne := splitOnBreaks_ne_nil s
    have hgl : (splitOnBreaks s).getLast hne = [] := by
      rw [List.getLast?_eq_getLast _ hne] at hlast
      injection hlast
    have hd : splitOnBreaks s = (splitOnBreaks s).dropLast ++ [[]] := by
      conv_lhs => rw [← List.dropLast_append_getLast hne]
      rw [hgl]
    rw [hdrop] at hd
    simp only [List.nil_append] at hd
    exact h (splitOnBreaks_eq_single_nil hd)
  · exact splitOnBreaks_ne_nil s

theorem map_processLine_sum_le (ls : List Str) :
    ((ls.map processLine).map List.length).sum ≤ 2 * (ls.map List.length).sum := by
  induction ls with
  | nil => simp
  | cons l t ih =>
    simp only [List.map_cons, List.sum_cons]
    have := processLine_length_le l
    omega

theorem format_titles_length_le (t : Str) :
    (format_titles_with_low_line t).length ≤ 2 * t.length := by
  rw [format_titles_with_low_line]
  split_ifs with h0
  · simp
  · have hlnn : splitlines t ≠ [] := splitlines_ne_nil h0
    have hmapnn : (splitlines t).map processLine ≠ [] := by simpa using hlnn
    have hj := joinNl_length _ hmapnn
    have hsum := map_processLine_sum_le (splitlines t)
    have hsl := splitlines_sum_le t
    have hlen1 : 1 ≤ (splitlines t).length := List.length_pos.mpr hlnn
    simp only [List.length_map] at hj
    omega

/-- **C8, amended.** For backend replies of length up to `10 ^ 6`
(enough that the part count keeps every "(Part i/N)" header under the
hard limit), every message the send stage emits has length at most
`MAX_TELEGRAM_MESSAGE_CHARS`, and each message is its chunk prefixed by
its intact "(Part i/N)" header (the header is preserved even when the
chunk content had to be truncated).  Without a bound on the reply the
length bound fails: see the counterexample, where the header itself
outgrows the hard limit. -/
theorem c8_sends_within_hard_limit (cid : Int) (reply : Str)
    (hlen : reply.length ≤ 10 ^ 6) :
    ∀ s ∈ routerSends cid reply,
      s.2.length ≤ MAX_TELEGRAM_MESSAGE_CHARS ∧
      ∃ i, i < (split_message (format_titles_with_low_line reply)
          (MAX_TELEGRAM_MESSAGE_CHARS - 25)).length ∧
        partHeader (i + 1) (split_message (format_titles_with_low_line reply)
          (MAX_TELEGRAM_MESSAGE_CHARS - 25)).length <+: s.2 := by
  intro s hs
  rw [routerSends, sendsForParts] at hs
  obtain ⟨i, hir, rfl⟩ := List.mem_map.mp hs
  have hiN : i < (split_message (format_titles_with_low_line reply)
      (MAX_TELEGRAM_MESSAGE_CHARS - 25)).length := List.mem_range.mp hir
  have hcount : (split_message (format_titles_with_low_line reply)
      (MAX_TELEGRAM_MESSAGE_CHARS - 25)).length ≤
        (format_titles_with_low_line reply).length :=
    split_message_count_le _ _ (by decide)
  have hfmt := format_titles_length_le reply
  have hN : (split_message (format_titles_with_low_line reply)
      (MAX_TELEGRAM_MESSAGE_CHARS - 25)).length < 10 ^ 7 := by
    have hp : (2 : Nat) * 10 ^ 6 < 10 ^ 7 := by norm_num
    omega
  have hhead := partHeader_length_le (i + 1)
    ((split_message (format_titles_with_low_line reply)
      (MAX_TELEGRAM_MESSAGE_CHARS - 25)).length) 7 (by norm_num) (by omega) hN
  refine ⟨?_, i, hiN, ?_⟩
  · refine finalizeMessage_length_le _ _ ?_
    have : MAX_TELEGRAM_MESSAGE_CHARS = 4000 := rfl
    omega
  · exact finalizeMessage_header_prefix _ _

/-! The counterexample to C8 as stated: a reply so long that the part
count `N` has 3991 digits, making the "(Part 1/N)" header alone 4002
characters.  The truncation logic preserves the header and cuts the
content to nothing, so the sent message still exceeds the hard limit. -/

theorem rlast_replicate_none {a c : Char} (h : c ≠ a) :
    ∀ n, rlast (List.replicate n a) c = none := by
  intro n
  induction n with
  | zero => rfl
  | succ n ih =>
    rw [List.replicate_succ, rlast, ih]
    rw [if_neg (fun hac => h hac.symm)]

theorem splitPoint_replicate_a (n m : Nat) :
    splitPoint (List.replicate n 'a') m = none := by
  rw [splitPoint, List.take_replicate, rlast_replicate_none (by decide),
    rlast_replicate_none (by decide)]

theorem replicate_a_ne_nil {n : Nat} (h : 0 < n) :
    (List.replicate n 'a' : Str) ≠ [] := by
  intro hc
  have := congrArg List.length hc
  rw [List.length_replicate] at this
  simp at this
  omega

theorem strip_replicate_a_isEmpty (n : Nat) (h : 0 < n) :
    (strip (List.replicate n 'a')).isEmpty = false := by
  rw [strip_replicate 'a' (by decide) n]
  cases hn : (List.replicate n 'a' : Str) with
  | nil => exact absurd hn (replicate_a_ne_nil h)
  | cons x t => simp

theorem goChunksF_replicate (m : Nat) (hm : 0 < m) :
    ∀ K f, m * K ≤ f →
      goChunksF m f (List.replicate (m * (K + 1)) 'a') =
        List.replicate (K + 1) (List.replicate m 'a') := by
  intro K
  induction K with
  | zero =>
    intro f _
    have hone : m * 1 = m := Nat.mul_one m
    rw [hone]
    have hemp := strip_replicate_a_isEmpty m hm
    have hstrip := strip_replicate 'a' (by decide) m
    cases f with
    | zero =>
      rw [goChunksF, hemp]
      simp [hstrip]
    | succ f =>
      rw [goChunksF, if_neg (by rw [List.length_replicate]; omega), hemp]
      simp [hstrip]
  | succ K ih =>
    intro f hf
    have hmK : 1 ≤ m * (K + 1) := by
      calc 1 = 1 * 1 := rfl
        _ ≤ m * (K + 1) := Nat.mul_le_mul hm (by omega)
    obtain ⟨f', rfl⟩ : ∃ f', f = f' + 1 := ⟨f - 1, by omega⟩
    have hlen : (List.replicate (m * (K + 2)) 'a' : Str).length = m * (K + 2) :=
      List.length_replicate _ _
    have hlt : m < m * (K + 2) := by
      have h2 : m * 2 ≤ m * (K + 2) := Nat.mul_le_mul_left m (by omega)
      omega
    rw [goChunksF, if_pos (by rw [hlen]; exact hlt), splitPoint_replicate_a]
    have htake : (List.replicate (m * (K + 2)) 'a' : Str).take m =
        List.replicate m 'a' := by
      rw [List.take_replicate, Nat.min_eq_left (le_of_lt hlt)]
    have hdrop : (List.replicate (m * (K + 2)) 'a' : Str).drop m =
        List.replicate (m * (K + 1)) 'a' := by
      rw [List.drop_replicate]
      congr 1
      have : m * (K + 2) = m * (K + 1) + m := by ring
      omega
    rw [htake, hdrop, ih f' (by
      have : m * (K + 1) = m * K + m := by ring
      omega)]
    rw [← List.replicate_succ]

theorem filter_replicate_of_pos {p : Str → Bool} {c : Str} (h : p c = true) :
    ∀ K, (List.replicate K c).filter p = List.replicate K c := by
  intro K
  induction K with
  | zero => rfl
  | succ K ih =>
    rw [List.replicate_succ, List.filter_cons, if_pos h, ih, ← List.replicate_succ]

theorem split_message_replicate (m : Nat) (hm : 0 < m) (K : Nat) :
    split_message (List.replicate (m * (K + 1)) 'a') m =
      List.replicate (K + 1) (List.replicate m 'a') := by
  rw [split_message, List.length_replicate]
  rw [goChunksF_replicate m hm K (m * (K + 1)) (by
    have h1 : m * K ≤ m * (K + 1) := Nat.mul_le_mul_left m (by omega)
    exact h1)]
  refine filter_replicate_of_pos ?_ (K + 1)
  have := strip_replicate_a_isEmpty m hm
  rw [strip_replicate 'a' (by decide) m] at this
  rw [this]
  rfl

theorem matchHeader_replicate_a (n : Nat) :
    matchHeader (List.replicate n 'a') = none := by
  have htw : (List.replicate n 'a' : Str).takeWhile (fun c => c = '#') = [] := by
    cases n with
    | zero => rfl
    | succ n =>
      rw [List.replicate_succ, List.takeWhile_cons_of_neg (by decide)]
  simp [matchHeader, htw]

theorem format_titles_replicate_a (n : Nat) (h : 0 < n) :
    format_titles_with_low_line (List.replicate n 'a') = List.replicate n 'a' := by
  refine format_titles_passthrough _ (replicate_a_ne_nil h) ?_ (matchHeader_replicate_a n)
  intro c hmem
  have hc := List.eq_of_mem_replicate hmem
  subst hc
  decide

/-- **C8, counterexample.** With a backend reply of `3975 * 10 ^ 3990`
repetitions of `'a'`, the segmenter produces `10 ^ 3990` chunks, the
"(Part 1/10^3990)" header is 4002 characters by itself, and the router
sends a message longer than the 4000-character hard limit — the claim
that every outbound reply message respects the hard limit fails. -/
theorem c8_counterexample :
    ∃ s ∈ routerSends 1 (List.replicate (3975 * 10 ^ 3990) 'a'),
      MAX_TELEGRAM_MESSAGE_CHARS < s.2.length := by
  have hNpos : 0 < 10 ^ 3990 := pow_pos (by norm_num) 3990
  have hN1 : 1 < 10 ^ 3990 := by
    have h10 : (10 : Nat) ^ 1 ≤ 10 ^ 3990 := Nat.pow_le_pow_right (by norm_num) (by norm_num)
    rw [pow_one] at h10
    omega
  obtain ⟨K, hK⟩ : ∃ K, 10 ^ 3990 = K + 1 := ⟨10 ^ 3990 - 1, by omega⟩
  have hm3975 : MAX_TELEGRAM_MESSAGE_CHARS - 25 = 3975 := rfl
  have hfmt : format_titles_with_low_line (List.replicate (3975 * 10 ^ 3990) 'a') =
      List.replicate (3975 * 10 ^ 3990) 'a' :=
    format_titles_replicate_a _ (by positivity)
  have hparts : split_message
      (format_titles_with_low_line (List.replicate (3975 * 10 ^ 3990) 'a'))
      (MAX_TELEGRAM_MESSAGE_CHARS - 25) =
        List.replicate (10 ^ 3990) (List.replicate 3975 'a') := by
    rw [hfmt, hm3975, hK]
    exact split_message_replicate 3975 (by norm_num) K
  have hheader : (partHeader 1 (10 ^ 3990)).length = 4002 := by
    rw [partHeader_length 1 _ hN1]
    have h1 : (natToStr 1).length = 1 := by decide
    have h2 : (natToStr (10 ^ 3990)).length = 3991 := by
      rw [natToStr_length_of_ne_zero (by positivity), natDigits_pow10_length]
    omega
  have hfin : (finalizeMessage (partHeader 1 (10 ^ 3990))
      (List.replicate 3975 'a')).length = 4002 := by
    have happ : ((partHeader 1 (10 ^ 3990)) ++ (List.replicate 3975 'a' : Str)).length =
        4002 + 3975 := by
      rw [List.length_append, hheader, List.length_replicate]
    simp only [finalizeMessage]
    rw [if_pos (by rw [happ]; decide)]
    rw [List.length_append, List.length_take, hheader, List.length_replicate]
    have : MAX_TELEGRAM_MESSAGE_CHARS = 4000 := rfl
    omega
  refine ⟨(1, finalizeMessage (partHeader 1 (10 ^ 3990)) (List.replicate 3975 'a')),
    ?_, ?_⟩
  · rw [routerSends, sendsForParts, hparts, List.length_replicate]
    refine List.mem_map.mpr ⟨0, List.mem_range.mpr hNpos, ?_⟩
    have hgetd : (List.replicate (10 ^ 3990) (List.replicate 3975 'a')).getD 0 [] =
        List.replicate 3975 'a' := by
      rw [hK, List.replicate_succ]
      rfl
    rw [hgetd]
  · rw [hfin]
    decide

/-- Witness for the amended C8 at a concrete input. -/
theorem c8_sends_within_hard_limit_witness :
    ((1 : Int), "hello".toList).2.length ≤ MAX_TELEGRAM_MESSAGE_CHARS ∧
      ∃ i, i < (split_message (format_titles_with_low_line "hello".toList)
          (MAX_TELEGRAM_MESSAGE_CHARS - 25)).length ∧
        partHeader (i + 1) (split_message (format_titles_with_low_line "hello".toList)
          (MAX_TELEGRAM_MESSAGE_CHARS - 25)).length <+: ((1 : Int), "hello".toList).2 :=
  c8_sends_within_hard_limit 1 "hello".toList (by decide) (1, "hello".toList)
    (by decide)

end GeminiBot
